import Mathlib

/-!
A shallow embedding of the Infinity-Chess-Bot engine core (src/board.rs and
src/move/movegen.rs) together with theorems about its move generation,
make/unmake, evaluation and attack queries.

Modelling conventions:
* `BigInt` coordinates become `Int` (both are unbounded signed integers).
* The sparse `HashMap<Coordinate, Piece>` board becomes an association list
  `List (Coordinate × Piece)`; `insert` replaces any entry with the same key,
  `remove` deletes it, `get` finds the first entry.  HashMap iteration order is
  unspecified in the source, so the list order plays the role of one concrete
  iteration order; theorems that depend on "at most one piece per coordinate"
  take the key-nodup invariant as a hypothesis.
* The `Vec<Board>` history stack: `Board::make` pushes a full clone of the
  board (whose own `history` field is exactly the stack below it), so each
  stack entry is determined by its four non-history fields.  We therefore store
  the history as a list of `Snapshot`s of those four fields, with push = cons
  and pop = head, matching `Vec::push` / `Vec::pop` LIFO order.
* Rust panics (`unwrap`, `panic!`, the out-of-bounds history pop) are modelled
  by `Option`, with `none` for a panic.  The fixed 256-slot `MoveList` array is
  modelled as an unbounded list; overflow behaviour is out of scope (spec §7
  leaves it undefined).
* `u8` castling-rights arithmetic: `r &= !m` on a `u8` becomes
  `r.land (255 ^^^ m)` on `Nat` (values never leave `[0, 255]`).
-/

/-- The twelve piece kinds of `src/board.rs`. -/
inductive Piece where
  | WhitePawn
  | WhiteRook
  | WhiteKnight
  | WhiteBishop
  | WhiteQueen
  | WhiteKing
  | BlackPawn
  | BlackRook
  | BlackKnight
  | BlackBishop
  | BlackQueen
  | BlackKing
deriving DecidableEq, Repr

/-- `Piece::is_white` from src/board.rs. -/
def Piece.is_white : Piece → Bool
  | .WhitePawn | .WhiteRook | .WhiteKnight | .WhiteBishop | .WhiteQueen | .WhiteKing => true
  | _ => false

/-- `Piece::is_black` from src/board.rs. -/
def Piece.is_black : Piece → Bool
  | .BlackPawn | .BlackRook | .BlackKnight | .BlackBishop | .BlackQueen | .BlackKing => true
  | _ => false

/-- `PIECE_VALUES` from src/board.rs, indexed by the piece discriminant:
`[100, 700, 300, 400, 1200, 0, 100, 700, 300, 400, 1200, 0]`. -/
def piece_value : Piece → Int
  | .WhitePawn => 100
  | .WhiteRook => 700
  | .WhiteKnight => 300
  | .WhiteBishop => 400
  | .WhiteQueen => 1200
  | .WhiteKing => 0
  | .BlackPawn => 100
  | .BlackRook => 700
  | .BlackKnight => 300
  | .BlackBishop => 400
  | .BlackQueen => 1200
  | .BlackKing => 0

/-- `Coordinate(BigInt, BigInt)` from src/board.rs; field `.0` is `x`,
field `.1` is `y`. -/
structure Coordinate where
  x : Int
  y : Int
deriving DecidableEq, Repr

/-- `Direction` from src/move/movegen.rs. -/
inductive Direction where
  | TopLeft
  | TopRight
  | BottomLeft
  | BottomRight
  | Top
  | Bottom
  | Left
  | Right
deriving DecidableEq, Repr

/-- `Move` from src/move/movegen.rs. -/
inductive Move where
  | Normal (from_ to_ : Coordinate)
  | Castling (from_ to_ : Coordinate)
  | EnPassant (from_ to_ : Coordinate)
  | Promotion (from_ to_ : Coordinate) (new_piece : Piece)
  | InfiniteMove (from_ : Coordinate) (dir : Direction)
  | None
deriving DecidableEq, Repr

/-- One entry of the undo stack: the four non-`history` fields of a `Board`
(see the header comment on how `Vec<Board>` snapshots are modelled). -/
structure Snapshot where
  state : List (Coordinate × Piece)
  castling_rights : Nat
  en_passant : Option Coordinate
  side_to_move : Bool
deriving DecidableEq, Repr

/-- `Board` from src/board.rs.  `side_to_move` is true for White. -/
structure Board where
  state : List (Coordinate × Piece)
  castling_rights : Nat
  en_passant : Option Coordinate
  side_to_move : Bool
  history : List Snapshot
deriving DecidableEq, Repr

/-- `HashMap::get`: the piece stored at a coordinate (first matching entry). -/
def hmGet (s : List (Coordinate × Piece)) (c : Coordinate) : Option Piece :=
  (s.find? (fun e => e.1 == c)).map (fun e => e.2)

/-- `HashMap::remove`: drop every entry with the given key (a real map has at
most one). -/
def hmErase (s : List (Coordinate × Piece)) (c : Coordinate) :
    List (Coordinate × Piece) :=
  s.filter (fun e => e.1 != c)

/-- `HashMap::insert`: replace any existing entry for the key. -/
def hmInsert (s : List (Coordinate × Piece)) (c : Coordinate) (p : Piece) :
    List (Coordinate × Piece) :=
  (c, p) :: hmErase s c

/-- `Board::get_piece`. -/
def Board.get_piece (b : Board) (c : Coordinate) : Option Piece :=
  hmGet b.state c

/-- `Board::set_piece`. -/
def Board.set_piece (b : Board) (c : Coordinate) (p : Piece) : Board :=
  { b with state := hmInsert b.state c p }

/-- `Board::remove_piece`. -/
def Board.remove_piece (b : Board) (c : Coordinate) : Board :=
  { b with state := hmErase b.state c }

/-- `Board::empty`. -/
def Board.empty : Board :=
  { state := [], castling_rights := 15, en_passant := none,
    side_to_move := true, history := [] }

/-- `Board::new`: the canonical starting position, built by the same
insertions in the same order as the source. -/
def Board.start : Board :=
  let whitePawns := (List.range 8).foldl
    (fun s i => hmInsert s ⟨(i : Int) + 1, 2⟩ .WhitePawn) []
  let white :=
    hmInsert (hmInsert (hmInsert (hmInsert (hmInsert (hmInsert (hmInsert
      (hmInsert whitePawns ⟨1, 1⟩ .WhiteRook) ⟨8, 1⟩ .WhiteRook)
      ⟨2, 1⟩ .WhiteKnight) ⟨7, 1⟩ .WhiteKnight) ⟨3, 1⟩ .WhiteBishop)
      ⟨6, 1⟩ .WhiteBishop) ⟨4, 1⟩ .WhiteQueen) ⟨5, 1⟩ .WhiteKing
  let blackPawns := (List.range 8).foldl
    (fun s i => hmInsert s ⟨(i : Int) + 1, 7⟩ .BlackPawn) white
  let full :=
    hmInsert (hmInsert (hmInsert (hmInsert (hmInsert (hmInsert (hmInsert
      (hmInsert blackPawns ⟨1, 8⟩ .BlackRook) ⟨8, 8⟩ .BlackRook)
      ⟨2, 8⟩ .BlackKnight) ⟨7, 8⟩ .BlackKnight) ⟨3, 8⟩ .BlackBishop)
      ⟨6, 8⟩ .BlackBishop) ⟨4, 8⟩ .BlackQueen) ⟨5, 8⟩ .BlackKing
  { state := full, castling_rights := 15, en_passant := none,
    side_to_move := true, history := [] }

/-- The castling-rights mask cleared by moving `piece` away from `f`
(the `match piece` block at the end of `Board::move_piece`): kings clear
`0b1100` / `0b0011`, rooks on their corner squares clear one bit. -/
def castlingClear (piece : Piece) (f : Coordinate) : Nat :=
  match piece with
  | .WhiteKing => 12
  | .BlackKing => 3
  | .WhiteRook => if f = ⟨1, 1⟩ then 8 else if f = ⟨8, 1⟩ then 4 else 0
  | .BlackRook => if f = ⟨1, 8⟩ then 2 else if f = ⟨8, 8⟩ then 1 else 0
  | _ => 0

/-- The castling block in the middle of `Board::move_piece`: when a king
moved two files from its start square, relocate the corner rook (whose
`remove(..).unwrap()` panics, hence `none`, when the corner is empty). -/
def castleRookStep (s : List (Coordinate × Piece)) (piece : Piece)
    (f t : Coordinate) : Option (List (Coordinate × Piece)) :=
  if piece = .WhiteKing ∧ f = ⟨5, 1⟩ then
    if t = ⟨3, 1⟩ then
      match hmGet s ⟨1, 1⟩ with
      | some rook => some (hmInsert (hmErase s ⟨1, 1⟩) ⟨4, 1⟩ rook)
      | none => none
    else if t = ⟨7, 1⟩ then
      match hmGet s ⟨8, 1⟩ with
      | some rook => some (hmInsert (hmErase s ⟨8, 1⟩) ⟨6, 1⟩ rook)
      | none => none
    else some s
  else if piece = .BlackKing ∧ f = ⟨5, 8⟩ then
    if t = ⟨3, 8⟩ then
      match hmGet s ⟨1, 8⟩ with
      | some rook => some (hmInsert (hmErase s ⟨1, 8⟩) ⟨4, 8⟩ rook)
      | none => none
    else if t = ⟨7, 8⟩ then
      match hmGet s ⟨8, 8⟩ with
      | some rook => some (hmInsert (hmErase s ⟨8, 8⟩) ⟨6, 8⟩ rook)
      | none => none
    else some s
  else some s

/-- `Board::move_piece`, step for step: remove the capture target; test the
moving piece for en-passant capture (this `get(&from).unwrap()` panics when
`from` is empty); remove-and-reinsert the moving piece; relocate the rook on
castling; update castling rights; clear/set the en-passant register. -/
def Board.move_piece (b : Board) (f t : Coordinate) : Option Board :=
  let s1 := hmErase b.state t
  match hmGet s1 f with
  | none => none
  | some p0 =>
    let s2 :=
      if (p0 = .WhitePawn ∨ p0 = .BlackPawn) ∧ b.en_passant = some t then
        hmErase s1 ⟨t.x, f.y⟩
      else s1
    match hmGet s2 f with
    | none => none
    | some piece =>
      let s3 := hmInsert (hmErase s2 f) t piece
      match castleRookStep s3 piece f t with
      | none => none
      | some s4 =>
        some { b with
          state := s4,
          castling_rights := b.castling_rights.land (255 ^^^ castlingClear piece f),
          en_passant :=
            if (piece = .WhitePawn ∨ piece = .BlackPawn) ∧ (f.y - t.y).natAbs = 2
            then some ⟨f.x, (f.y + t.y) / 2⟩
            else none }

/-- The per-piece accumulator state of `Board::evaluate`. -/
structure EvalAcc where
  white_material : Int
  black_material : Int
  white_minor_pieces : Nat
  black_minor_pieces : Nat
  white_has_queen_or_rook : Bool
  black_has_queen_or_rook : Bool
  white_has_pawn : Bool
  black_has_pawn : Bool
deriving Repr

/-- One iteration of the material loop in `Board::evaluate`. -/
def evalStep (a : EvalAcc) (piece : Piece) : EvalAcc :=
  match piece with
  | .WhitePawn =>
    { a with white_material := a.white_material + piece_value .WhitePawn,
             white_has_pawn := true }
  | .BlackPawn =>
    { a with black_material := a.black_material + piece_value .BlackPawn,
             black_has_pawn := true }
  | .WhiteQueen =>
    { a with white_material := a.white_material + piece_value .WhiteQueen,
             white_has_queen_or_rook := true }
  | .WhiteRook =>
    { a with white_material := a.white_material + piece_value .WhiteRook,
             white_has_queen_or_rook := true }
  | .BlackQueen =>
    { a with black_material := a.black_material + piece_value .BlackQueen,
             black_has_queen_or_rook := true }
  | .BlackRook =>
    { a with black_material := a.black_material + piece_value .BlackRook,
             black_has_queen_or_rook := true }
  | .WhiteKnight =>
    { a with white_material := a.white_material + piece_value .WhiteKnight,
             white_minor_pieces := a.white_minor_pieces + 1 }
  | .WhiteBishop =>
    { a with white_material := a.white_material + piece_value .WhiteBishop,
             white_minor_pieces := a.white_minor_pieces + 1 }
  | .BlackKnight =>
    { a with black_material := a.black_material + piece_value .BlackKnight,
             black_minor_pieces := a.black_minor_pieces + 1 }
  | .BlackBishop =>
    { a with black_material := a.black_material + piece_value .BlackBishop,
             black_minor_pieces := a.black_minor_pieces + 1 }
  | .WhiteKing => a
  | .BlackKing => a

/-- `Board::evaluate`: material count, insufficient-material early return,
then the white-minus-black score negated for Black to move. -/
def Board.evaluate (b : Board) : Int :=
  let acc := b.state.foldl (fun a e => evalStep a e.2)
    ⟨0, 0, 0, 0, false, false, false, false⟩
  if acc.black_has_pawn = false ∧ acc.white_has_pawn = false ∧
     (acc.white_has_queen_or_rook = false ∧ acc.white_material = 0 ∧
       acc.white_minor_pieces ≤ 1) ∧
     (acc.black_has_queen_or_rook = false ∧ acc.black_material = 0 ∧
       acc.black_minor_pieces ≤ 1) then
    0
  else
    let score := acc.white_material - acc.black_material
    if b.side_to_move then score else -score

/-- `Board::king_position`: the first entry holding the requested king;
`none` models the `panic!("King not found!")`. -/
def Board.king_position (b : Board) (is_w : Bool) : Option Coordinate :=
  (b.state.find? (fun e =>
    (is_w && e.2 == Piece.WhiteKing) || (!is_w && e.2 == Piece.BlackKing))).map
    (fun e => e.1)

/-- `Board::snapshot`: the four non-history fields pushed by `make`. -/
def Board.snapshot (b : Board) : Snapshot :=
  ⟨b.state, b.castling_rights, b.en_passant, b.side_to_move⟩

/-- Rebuild a `Board` from a popped snapshot and the remaining stack. -/
def Snapshot.restore (s : Snapshot) (h : List Snapshot) : Board :=
  ⟨s.state, s.castling_rights, s.en_passant, s.side_to_move, h⟩

/-- `Board::unmake`: `*self = self.history.pop().unwrap()`; the move argument
is ignored by the source.  `none` models the panic on an empty stack. -/
def Board.unmake (b : Board) (_mv : Move) : Option Board :=
  match b.history with
  | [] => none
  | s :: rest => some (s.restore rest)

/-- `MoveGen::is_opponent_piece`: the source's exhaustive 72-arm `matches!`
lists exactly the pairs with one white and one black piece. -/
def MoveGen.is_opponent_piece (piece target_piece : Piece) : Bool :=
  (piece.is_white && target_piece.is_black) ||
    (piece.is_black && target_piece.is_white)

/-- The four promotion entries pushed by `generate_pawn_moves` whenever a pawn
reaches its promotion row: always the WHITE queen/rook/knight/bishop, also for
a black mover (verbatim from the source). -/
def MoveGen.promotion_batch (c f : Coordinate) : List Move :=
  [Move.Promotion c f .WhiteQueen, Move.Promotion c f .WhiteRook,
   Move.Promotion c f .WhiteKnight, Move.Promotion c f .WhiteBishop]

/-- `MoveGen::generate_pawn_moves`: single push (with promotion expansion),
double push from the start row, then the two diagonal captures with promotion
expansion and the en-passant case, in source order. -/
def MoveGen.generate_pawn_moves (b : Board) (coord : Coordinate)
    (piece : Piece) : List Move :=
  let direction : Int := if piece = .WhitePawn then 1 else -1
  let start_row : Int := if piece = .WhitePawn then 2 else 7
  let promotion_row : Int := if piece = .WhitePawn then 8 else 1
  let forward : Coordinate := ⟨coord.x, coord.y + direction⟩
  let single :=
    if b.get_piece forward = none then
      if forward.y = promotion_row then MoveGen.promotion_batch coord forward
      else [Move.Normal coord forward]
    else []
  let dbl :=
    if coord.y = start_row then
      let double_forward : Coordinate := ⟨coord.x, coord.y + 2 * direction⟩
      if b.get_piece double_forward = none ∧ b.get_piece forward = none then
        [Move.Normal coord double_forward]
      else []
    else []
  let caps := [(1 : Int), -1].flatMap (fun dx =>
    let capture : Coordinate := ⟨coord.x + dx, coord.y + direction⟩
    match b.get_piece capture with
    | some target_piece =>
      if MoveGen.is_opponent_piece piece target_piece then
        if capture.y = promotion_row then MoveGen.promotion_batch coord capture
        else [Move.Normal coord capture]
      else []
    | none =>
      match b.en_passant with
      | some en_passant =>
        if capture = en_passant then [Move.EnPassant coord capture] else []
      | none => [])
  single ++ dbl ++ caps

/-- The ray-membership test inside the rook scan of `generate_rook_moves`:
`target_coord` lies strictly beyond `coord` in direction `(dx, dy)` along a
rank or file. -/
def MoveGen.rook_on_ray (coord : Coordinate) (dx dy : Int)
    (tc : Coordinate) : Bool :=
  decide ((dx = 0 ∧ tc.x = coord.x ∧
            ((0 < dy ∧ coord.y < tc.y) ∨ (dy < 0 ∧ tc.y < coord.y))) ∨
          (dy = 0 ∧ tc.y = coord.y ∧
            ((0 < dx ∧ coord.x < tc.x) ∨ (dx < 0 ∧ tc.x < coord.x))))

/-- The closest-piece comparison inside the rook scan: `tc` is strictly nearer
to `coord` than the current candidate `cc`. -/
def MoveGen.rook_nearer (coord : Coordinate) (dx dy : Int)
    (tc cc : Coordinate) : Bool :=
  decide ((dx = 0 ∧ (tc.y - coord.y).natAbs < (cc.y - coord.y).natAbs) ∨
          (dy = 0 ∧ (tc.x - coord.x).natAbs < (cc.x - coord.x).natAbs))

/-- The diagonal-membership test inside the bishop scan of
`generate_bishop_moves`. -/
def MoveGen.bishop_on_ray (coord : Coordinate) (dx dy : Int)
    (tc : Coordinate) : Bool :=
  decide ((tc.x - coord.x).natAbs = (tc.y - coord.y).natAbs ∧
          ((0 < dx ∧ coord.x < tc.x) ∨ (dx < 0 ∧ tc.x < coord.x)) ∧
          ((0 < dy ∧ coord.y < tc.y) ∨ (dy < 0 ∧ tc.y < coord.y)))

/-- The closest-piece comparison inside the bishop scan (x-distance only). -/
def MoveGen.bishop_nearer (coord : Coordinate) (dx dy : Int)
    (tc cc : Coordinate) : Bool :=
  decide ((tc.x - coord.x).natAbs < (cc.x - coord.x).natAbs)

/-- The `for (target_coord, target_piece) in &board.state` scan shared by the
rook and bishop generators: fold over the state keeping the first on-ray piece
that every later on-ray piece fails to beat. -/
def MoveGen.scan_closest (state : List (Coordinate × Piece))
    (on_ray : Coordinate → Bool) (nearer : Coordinate → Coordinate → Bool) :
    Option (Coordinate × Piece) :=
  state.foldl (fun closest tcp =>
    if on_ray tcp.1 then
      match closest with
      | none => some tcp
      | some ccp => if nearer tcp.1 ccp.1 then some tcp else closest
    else closest) none

/-- The rook direction-to-`Direction` table (the `unsafe` arm is unreachable
for the four rook directions; `.Top` is an arbitrary default). -/
def MoveGen.rook_dir (dx dy : Int) : Direction :=
  if dx = 0 ∧ dy = 1 then .Top
  else if dx = 0 ∧ dy = -1 then .Bottom
  else if dx = 1 ∧ dy = 0 then .Right
  else if dx = -1 ∧ dy = 0 then .Left
  else .Top

/-- The bishop direction-to-`Direction` table. -/
def MoveGen.bishop_dir (dx dy : Int) : Direction :=
  if dx = 1 ∧ dy = 1 then .TopRight
  else if dx = 1 ∧ dy = -1 then .BottomRight
  else if dx = -1 ∧ dy = 1 then .TopLeft
  else if dx = -1 ∧ dy = -1 then .BottomLeft
  else .TopRight

/-- The moves one direction of `generate_rook_moves` contributes: a single
capture of the closest opponent, nothing behind a friendly blocker, or the
symbolic `InfiniteMove` on an empty ray. -/
def MoveGen.rook_ray_moves (b : Board) (coord : Coordinate) (piece : Piece)
    (dx dy : Int) : List Move :=
  match MoveGen.scan_closest b.state (MoveGen.rook_on_ray coord dx dy)
      (MoveGen.rook_nearer coord dx dy) with
  | some (tc, tp) =>
    if MoveGen.is_opponent_piece piece tp then [Move.Normal coord tc] else []
  | none => [Move.InfiniteMove coord (MoveGen.rook_dir dx dy)]

/-- The moves one direction of `generate_bishop_moves` contributes. -/
def MoveGen.bishop_ray_moves (b : Board) (coord : Coordinate) (piece : Piece)
    (dx dy : Int) : List Move :=
  match MoveGen.scan_closest b.state (MoveGen.bishop_on_ray coord dx dy)
      (MoveGen.bishop_nearer coord dx dy) with
  | some (tc, tp) =>
    if MoveGen.is_opponent_piece piece tp then [Move.Normal coord tc] else []
  | none => [Move.InfiniteMove coord (MoveGen.bishop_dir dx dy)]

/-- The `directions` array of `generate_rook_moves`. -/
def MoveGen.rook_directions : List (Int × Int) :=
  [(0, 1), (0, -1), (1, 0), (-1, 0)]

/-- The `directions` array of `generate_bishop_moves`. -/
def MoveGen.bishop_directions : List (Int × Int) :=
  [(1, 1), (1, -1), (-1, 1), (-1, -1)]

/-- `MoveGen::generate_rook_moves`. -/
def MoveGen.generate_rook_moves (b : Board) (coord : Coordinate)
    (piece : Piece) : List Move :=
  MoveGen.rook_directions.flatMap (fun d =>
    MoveGen.rook_ray_moves b coord piece d.1 d.2)

/-- `MoveGen::generate_bishop_moves`. -/
def MoveGen.generate_bishop_moves (b : Board) (coord : Coordinate)
    (piece : Piece) : List Move :=
  MoveGen.bishop_directions.flatMap (fun d =>
    MoveGen.bishop_ray_moves b coord piece d.1 d.2)

/-- `MoveGen::generate_knight_moves`: the eight fixed offsets, allowed on an
empty or enemy-occupied target. -/
def MoveGen.generate_knight_moves (b : Board) (coord : Coordinate)
    (piece : Piece) : List Move :=
  [((2 : Int), (1 : Int)), (2, -1), (-2, 1), (-2, -1),
   (1, 2), (1, -2), (-1, 2), (-1, -2)].flatMap (fun d =>
    let next_coord : Coordinate := ⟨coord.x + d.1, coord.y + d.2⟩
    match b.get_piece next_coord with
    | some target_piece =>
      if MoveGen.is_opponent_piece piece target_piece then
        [Move.Normal coord next_coord]
      else []
    | none => [Move.Normal coord next_coord])

/-- `MoveGen::generate_queen_moves`: rook moves then bishop moves. -/
def MoveGen.generate_queen_moves (b : Board) (coord : Coordinate)
    (piece : Piece) : List Move :=
  MoveGen.generate_rook_moves b coord piece ++
    MoveGen.generate_bishop_moves b coord piece

/-- `MoveGen::generate_king_moves`: the eight steps, then the castling
emissions gated by the rights mask and empty intermediate squares. -/
def MoveGen.generate_king_moves (b : Board) (coord : Coordinate)
    (piece : Piece) : List Move :=
  let steps := [((1 : Int), (0 : Int)), (1, 1), (0, 1), (-1, 1),
    (-1, 0), (-1, -1), (0, -1), (1, -1)].flatMap (fun d =>
    let next_coord : Coordinate := ⟨coord.x + d.1, coord.y + d.2⟩
    match b.get_piece next_coord with
    | some target_piece =>
      if MoveGen.is_opponent_piece piece target_piece then
        [Move.Normal coord next_coord]
      else []
    | none => [Move.Normal coord next_coord])
  let castles :=
    if piece = .WhiteKing ∧ coord = ⟨5, 1⟩ then
      (if b.castling_rights.land 8 ≠ 0 ∧ b.get_piece ⟨6, 1⟩ = none ∧
          b.get_piece ⟨7, 1⟩ = none then
        [Move.Castling coord ⟨7, 1⟩] else []) ++
      (if b.castling_rights.land 4 ≠ 0 ∧ b.get_piece ⟨4, 1⟩ = none ∧
          b.get_piece ⟨3, 1⟩ = none ∧ b.get_piece ⟨2, 1⟩ = none then
        [Move.Castling coord ⟨3, 1⟩] else [])
    else if piece = .BlackKing ∧ coord = ⟨5, 8⟩ then
      (if b.castling_rights.land 2 ≠ 0 ∧ b.get_piece ⟨6, 8⟩ = none ∧
          b.get_piece ⟨7, 8⟩ = none then
        [Move.Castling coord ⟨7, 8⟩] else []) ++
      (if b.castling_rights.land 1 ≠ 0 ∧ b.get_piece ⟨4, 8⟩ = none ∧
          b.get_piece ⟨3, 8⟩ = none ∧ b.get_piece ⟨2, 8⟩ = none then
        [Move.Castling coord ⟨3, 8⟩] else [])
    else []
  steps ++ castles

/-- The per-piece dispatch of `MoveGen::generate_moves`. -/
def MoveGen.piece_moves (b : Board) (coord : Coordinate) (piece : Piece) :
    List Move :=
  match piece with
  | .WhitePawn | .BlackPawn => MoveGen.generate_pawn_moves b coord piece
  | .WhiteRook | .BlackRook => MoveGen.generate_rook_moves b coord piece
  | .WhiteKnight | .BlackKnight => MoveGen.generate_knight_moves b coord piece
  | .WhiteBishop | .BlackBishop => MoveGen.generate_bishop_moves b coord piece
  | .WhiteQueen | .BlackQueen => MoveGen.generate_queen_moves b coord piece
  | .WhiteKing | .BlackKing => MoveGen.generate_king_moves b coord piece

/-- `MoveGen::generate_moves`: every owned piece contributes its moves, in
state iteration order. -/
def MoveGen.generate_moves (b : Board) : List Move :=
  b.state.flatMap (fun e =>
    if (b.side_to_move && e.2.is_white) || (!b.side_to_move && e.2.is_black)
    then MoveGen.piece_moves b e.1 e.2
    else [])

/-- `Board::is_attacked`: probe with `side_to_move := by_white`, generate,
test whether any Normal or Promotion move targets `coord`, restore the side.
The pair carries the restored board so the source's in-place mutation and
restoration stays visible. -/
def Board.is_attacked (b : Board) (coord : Coordinate) (by_white : Bool) :
    Bool × Board :=
  let probe : Board := { b with side_to_move := by_white }
  let hit := (MoveGen.generate_moves probe).any (fun mv =>
    match mv with
    | .Normal _ to_ => to_ == coord
    | .Promotion _ to_ _ => to_ == coord
    | _ => false)
  (hit, { probe with side_to_move := b.side_to_move })

/-- The `match mv.clone()` block of `Board::make`: Promotion bypasses
`move_piece`; `InfiniteMove` and `None` fall to the `_ => {}` arm. -/
def Board.make_applied (b0 : Board) (mv : Move) : Option Board :=
  match mv with
  | .Normal f t => b0.move_piece f t
  | .Promotion f t piece => some ((b0.remove_piece f).set_piece t piece)
  | .Castling f t => b0.move_piece f t
  | .EnPassant f t => b0.move_piece f t
  | .InfiniteMove _ _ => some b0
  | .None => some b0

/-- The tail of `Board::make`: flip the side to move, find the mover's king
(`none` models the king-not-found panic), and return the legality flag
together with the board `is_attacked` hands back. -/
def Board.make_check (b1 : Board) : Option (Board × Bool) :=
  let b2 : Board := { b1 with side_to_move := !b1.side_to_move }
  match b2.king_position (!b2.side_to_move) with
  | none => none
  | some king_pos =>
    let res := b2.is_attacked king_pos b2.side_to_move
    some (res.2, !res.1)

/-- `Board::make`: push the snapshot, apply the move, flip the side to move,
then reject the move when the mover's king is attacked. -/
def Board.make (b : Board) (mv : Move) : Option (Board × Bool) :=
  match Board.make_applied { b with history := b.snapshot :: b.history } mv with
  | none => none
  | some b1 => b1.make_check

/-! ## Association-list (HashMap) lemmas -/

theorem hmGet_cons_eq (k : Coordinate) (v : Piece)
    (tl : List (Coordinate × Piece)) : hmGet ((k, v) :: tl) k = some v := by
  unfold hmGet
  rw [List.find?_cons_of_pos _ (by simp)]
  rfl

theorem hmGet_cons_ne (k : Coordinate) (v : Piece)
    (tl : List (Coordinate × Piece)) (f : Coordinate) (h : k ≠ f) :
    hmGet ((k, v) :: tl) f = hmGet tl f := by
  unfold hmGet
  rw [List.find?_cons_of_neg]
  simp [h]

theorem hmErase_cons_eq (k : Coordinate) (v : Piece)
    (tl : List (Coordinate × Piece)) : hmErase ((k, v) :: tl) k = hmErase tl k := by
  simp [hmErase, List.filter_cons]

theorem hmErase_cons_ne (k : Coordinate) (v : Piece)
    (tl : List (Coordinate × Piece)) (c : Coordinate) (h : k ≠ c) :
    hmErase ((k, v) :: tl) c = (k, v) :: hmErase tl c := by
  simp [hmErase, List.filter_cons, h]

theorem hmGet_erase (s : List (Coordinate × Piece)) (c f : Coordinate) :
    hmGet (hmErase s c) f = if f = c then none else hmGet s f := by
  induction s with
  | nil => simp [hmGet, hmErase]
  | cons hd tl ih =>
    obtain ⟨k, v⟩ := hd
    by_cases h1 : k = c
    · subst h1
      rw [hmErase_cons_eq, ih]
      by_cases h2 : f = k
      · simp [h2]
      · rw [if_neg h2, if_neg h2, hmGet_cons_ne _ _ _ _ (Ne.symm h2)]
    · rw [hmErase_cons_ne _ _ _ _ h1]
      by_cases h2 : k = f
      · subst h2
        rw [hmGet_cons_eq, hmGet_cons_eq, if_neg h1]
      · rw [hmGet_cons_ne _ _ _ _ h2, hmGet_cons_ne _ _ _ _ h2, ih]

theorem hmGet_insert (s : List (Coordinate × Piece)) (c f : Coordinate)
    (p : Piece) :
    hmGet (hmInsert s c p) f = if f = c then some p else hmGet s f := by
  by_cases h : f = c
  · subst h
    unfold hmInsert
    rw [hmGet_cons_eq, if_pos rfl]
  · unfold hmInsert
    rw [hmGet_cons_ne _ _ _ _ (Ne.symm h), hmGet_erase, if_neg h, if_neg h]

theorem hmGet_erase_some {s : List (Coordinate × Piece)} {c f : Coordinate}
    {p : Piece} (h : hmGet (hmErase s c) f = some p) :
    f ≠ c ∧ hmGet s f = some p := by
  rw [hmGet_erase] at h
  by_cases hfc : f = c
  · simp [hfc] at h
  · simp [hfc] at h
    exact ⟨hfc, h⟩

/-- With no duplicate keys, a key determines its piece. -/
theorem keys_nodup_mem_unique {s : List (Coordinate × Piece)}
    (hnd : (s.map Prod.fst).Nodup) {c : Coordinate} {p q : Piece}
    (hp : (c, p) ∈ s) (hq : (c, q) ∈ s) : p = q := by
  induction s with
  | nil => cases hp
  | cons hd tl ih =>
    obtain ⟨k, v⟩ := hd
    simp only [List.map_cons, List.nodup_cons] at hnd
    rcases List.mem_cons.mp hp with hp1 | hp1 <;>
      rcases List.mem_cons.mp hq with hq1 | hq1
    · cases hp1
      injection hq1 with h1 h2
      exact h2.symm
    · cases hp1
      exact absurd (List.mem_map_of_mem Prod.fst hq1) hnd.1
    · cases hq1
      exact absurd (List.mem_map_of_mem Prod.fst hp1) hnd.1
    · exact ih hnd.2 hp1 hq1

/-! ## Purity of `is_attacked` (claim C9) -/

theorem Board.is_attacked_snd (b : Board) (c : Coordinate) (w : Bool) :
    (b.is_attacked c w).2 = b := rfl

/-- C9: `is_attacked(c, by)` returns true exactly when some Normal or
Promotion move generated for side `by` targets `c`; it restores every field of
the position (the returned board is the argument board, bit for bit), and a
repeated call returns the same result. -/
theorem is_attacked_pure_query :
    ∀ (b : Board) (c : Coordinate) (w : Bool),
      (b.is_attacked c w).2 = b ∧
      ((b.is_attacked c w).1 = true ↔
        (∃ f, Move.Normal f c ∈
            MoveGen.generate_moves { b with side_to_move := w }) ∨
        (∃ f p, Move.Promotion f c p ∈
            MoveGen.generate_moves { b with side_to_move := w })) ∧
      (b.is_attacked c w).2.is_attacked c w = b.is_attacked c w := by
  intro b c w
  refine ⟨rfl, ?_, rfl⟩
  show (MoveGen.generate_moves _).any _ = true ↔ _
  rw [List.any_eq_true]
  constructor
  · rintro ⟨mv, hmem, hmv⟩
    cases mv with
    | Normal f t =>
      simp only [beq_iff_eq] at hmv
      exact Or.inl ⟨f, hmv ▸ hmem⟩
    | Promotion f t p =>
      simp only [beq_iff_eq] at hmv
      exact Or.inr ⟨f, p, hmv ▸ hmem⟩
    | Castling f t => simp at hmv
    | EnPassant f t => simp at hmv
    | InfiniteMove f d => simp at hmv
    | None => simp at hmv
  · rintro (⟨f, hmem⟩ | ⟨f, p, hmem⟩)
    · exact ⟨Move.Normal f c, hmem, by simp⟩
    · exact ⟨Move.Promotion f c p, hmem, by simp⟩

/-! ## Field tracking through `move_piece` and `make` -/

/-- What `move_piece` does to the non-state fields: the moved piece is the
piece standing on `from` beforehand; castling rights are masked by
`castlingClear`; the en-passant register is rewritten from scratch; history
and side to move are untouched. -/
theorem Board.move_piece_spec (b : Board) (f t : Coordinate) (b' : Board)
    (h : b.move_piece f t = some b') :
    ∃ p, b.get_piece f = some p ∧
      b'.castling_rights = b.castling_rights.land (255 ^^^ castlingClear p f) ∧
      b'.en_passant =
        (if (p = .WhitePawn ∨ p = .BlackPawn) ∧ (f.y - t.y).natAbs = 2
         then some ⟨f.x, (f.y + t.y) / 2⟩ else none) ∧
      b'.history = b.history ∧
      b'.side_to_move = b.side_to_move := by
  simp only [Board.move_piece] at h
  cases hg1 : hmGet (hmErase b.state t) f with
  | none => rw [hg1] at h; cases h
  | some p0 =>
    rw [hg1] at h
    simp only at h
    obtain ⟨hft, hgb⟩ := hmGet_erase_some hg1
    set s2 := if (p0 = .WhitePawn ∨ p0 = .BlackPawn) ∧ b.en_passant = some t
      then hmErase (hmErase b.state t) ⟨t.x, f.y⟩ else hmErase b.state t with hs2
    cases hg2 : hmGet s2 f with
    | none => rw [hg2] at h; cases h
    | some piece =>
      rw [hg2] at h
      simp only at h
      have hpp : piece = p0 := by
        rw [hs2] at hg2
        by_cases hc : (p0 = .WhitePawn ∨ p0 = .BlackPawn) ∧ b.en_passant = some t
        · rw [if_pos hc] at hg2
          obtain ⟨_, hg2'⟩ := hmGet_erase_some hg2
          rw [hg1] at hg2'
          exact (Option.some.inj hg2').symm
        · rw [if_neg hc, hg1] at hg2
          exact (Option.some.inj hg2).symm
      cases hcs : castleRookStep
          (hmInsert (hmErase s2 f) t piece) piece f t with
      | none => rw [hcs] at h; cases h
      | some s4 =>
        rw [hcs] at h
        simp only [Option.some.injEq] at h
        subst hpp
        exact ⟨piece, hgb, by rw [← h], by rw [← h], by rw [← h], by rw [← h]⟩

/-- The legality-check tail of `make` hands back exactly the applied board
with its side flipped. -/
theorem Board.make_check_some (b1 b' : Board) (r : Bool)
    (h : b1.make_check = some (b', r)) :
    b' = { b1 with side_to_move := !b1.side_to_move } := by
  simp only [Board.make_check] at h
  cases hk : ({ b1 with side_to_move := !b1.side_to_move } : Board).king_position
      (!({ b1 with side_to_move := !b1.side_to_move } : Board).side_to_move) with
  | none => rw [hk] at h; cases h
  | some kp =>
    rw [hk] at h
    simp only [Option.some.injEq, Prod.mk.injEq] at h
    rw [← h.1]
    exact (Board.is_attacked_snd _ kp _).symm

/-- Applying a move (any kind) through `make_applied` leaves `history`
untouched. -/
theorem Board.make_applied_history (b0 : Board) (mv : Move) (b1 : Board)
    (h : b0.make_applied mv = some b1) : b1.history = b0.history := by
  cases mv with
  | Normal f t =>
    obtain ⟨_, _, _, _, h1, _⟩ := b0.move_piece_spec f t b1 h
    exact h1
  | Castling f t =>
    obtain ⟨_, _, _, _, h1, _⟩ := b0.move_piece_spec f t b1 h
    exact h1
  | EnPassant f t =>
    obtain ⟨_, _, _, _, h1, _⟩ := b0.move_piece_spec f t b1 h
    exact h1
  | Promotion f t piece =>
    simp only [Board.make_applied, Option.some.injEq] at h
    rw [← h]
    rfl
  | InfiniteMove f d =>
    simp only [Board.make_applied, Option.some.injEq] at h
    rw [← h]
  | None =>
    simp only [Board.make_applied, Option.some.injEq] at h
    rw [← h]

/-- `make` always stacks the pre-move snapshot, whatever the move kind. -/
theorem Board.make_history (b : Board) (mv : Move) (b' : Board) (r : Bool)
    (h : b.make mv = some (b', r)) :
    b'.history = b.snapshot :: b.history := by
  simp only [Board.make] at h
  cases ha : Board.make_applied { b with history := b.snapshot :: b.history } mv with
  | none => rw [ha] at h; cases h
  | some b1 =>
    rw [ha] at h
    have h1 := Board.make_applied_history _ mv b1 ha
    rw [Board.make_check_some b1 b' r h]
    exact h1

/-- Popping any board whose history starts with `b`'s snapshot over `b`'s
remaining stack yields `b` itself. -/
theorem Board.unmake_of_history (x b : Board) (mv : Move)
    (h : x.history = b.snapshot :: b.history) : x.unmake mv = some b := by
  unfold Board.unmake
  rw [h]
  rfl

/-- Shared core of the make/unmake round trip: whenever `make` returns at all
(legal or not), the following `unmake` restores the exact pre-`make` board. -/
theorem Board.make_some_unmake (b : Board) (mv : Move) (b' : Board) (r : Bool)
    (h : b.make mv = some (b', r)) : b'.unmake mv = some b :=
  Board.unmake_of_history b' b mv (Board.make_history b mv b' r h)

/-! ## Concrete example positions -/

/-- A quiet position where White can push the a-file pawn legally. -/
def pawnPushBoard : Board :=
  { state := [(⟨0, 0⟩, .WhiteKing), (⟨0, 5⟩, .WhitePawn), (⟨10, 10⟩, .BlackKing)],
    castling_rights := 15, en_passant := none, side_to_move := true,
    history := [] }

def pawnPushMove : Move := .Normal ⟨0, 5⟩ ⟨0, 6⟩

def pawnPushResult : Board :=
  ((pawnPushBoard.make pawnPushMove).getD (Board.empty, true)).1

/-- White king in check from the rook on (0,5); any quiet pawn move is
illegal. -/
def pinnedBoard : Board :=
  { state := [(⟨0, 0⟩, .WhiteKing), (⟨3, 3⟩, .WhitePawn), (⟨0, 5⟩, .BlackRook),
      (⟨10, 10⟩, .BlackKing)],
    castling_rights := 15, en_passant := none, side_to_move := true,
    history := [] }

def pinnedMove : Move := .Normal ⟨3, 3⟩ ⟨3, 4⟩

def pinnedResult : Board :=
  ((pinnedBoard.make pinnedMove).getD (Board.empty, true)).1

/-- A black pawn one step from its promotion row, Black to move. -/
def blackPromotionBoard : Board :=
  { state := [(⟨0, 2⟩, .BlackPawn)], castling_rights := 15,
    en_passant := none, side_to_move := false, history := [] }

/-- White king and bishop against a bare black king. -/
def kingBishopBoard : Board :=
  { state := [(⟨0, 0⟩, .WhiteKing), (⟨1, 1⟩, .WhiteBishop), (⟨5, 5⟩, .BlackKing)],
    castling_rights := 15, en_passant := none, side_to_move := true,
    history := [] }

/-- The white queenside rook about to make its first move. -/
def rookMoveBoard : Board :=
  { state := [(⟨1, 1⟩, .WhiteRook), (⟨20, 20⟩, .WhiteKing), (⟨30, 30⟩, .BlackKing)],
    castling_rights := 15, en_passant := none, side_to_move := true,
    history := [] }

def rookMoveResult : Board :=
  (rookMoveBoard.move_piece ⟨1, 1⟩ ⟨2, 1⟩).getD Board.empty

/-- A white knight about to capture the black rook on its corner (1,8). -/
def rookCaptureBoard : Board :=
  { state := [(⟨3, 7⟩, .WhiteKnight), (⟨20, 20⟩, .WhiteKing),
      (⟨1, 8⟩, .BlackRook), (⟨30, 30⟩, .BlackKing)],
    castling_rights := 15, en_passant := none, side_to_move := true,
    history := [] }

/-- A stale en-passant register (5,3) while Black has a promotion ready. -/
def stalePromotionBoard : Board :=
  { state := [(⟨0, 2⟩, .BlackPawn), (⟨10, 10⟩, .BlackKing), (⟨20, 20⟩, .WhiteKing)],
    castling_rights := 15, en_passant := some ⟨5, 3⟩, side_to_move := false,
    history := [] }

def stalePromotionMove : Move := .Promotion ⟨0, 2⟩ ⟨0, 1⟩ .BlackQueen

def stalePromotionResult : Board :=
  ((stalePromotionBoard.make stalePromotionMove).getD (Board.empty, true)).1

/-- A white pawn alone, for the double-push en-passant register update. -/
def pawnDoubleBoard : Board :=
  { state := [(⟨0, 2⟩, .WhitePawn)], castling_rights := 15,
    en_passant := none, side_to_move := true, history := [] }

def pawnDoubleResult : Board :=
  (pawnDoubleBoard.move_piece ⟨0, 2⟩ ⟨0, 4⟩).getD Board.empty

/-! ## C1: make then unmake restores the position bit for bit -/

/-- C1: for every position and move, if `make` succeeds (returns `true`) and
`unmake` is then called, the position is restored with every field — squares,
castling rights, en-passant target, side to move, and history — exactly as
before the `make`. -/
theorem make_unmake_roundtrip :
    ∀ (b : Board) (mv : Move) (b' : Board),
      b.make mv = some (b', true) → b'.unmake mv = some b := by
  intro b mv b' h
  exact Board.make_some_unmake b mv b' true h

theorem make_unmake_roundtrip_witness :
    pawnPushBoard.make pawnPushMove = some (pawnPushResult, true) ∧
    pawnPushResult.unmake pawnPushMove = some pawnPushBoard :=
  ⟨by decide,
    make_unmake_roundtrip pawnPushBoard pawnPushMove pawnPushResult (by decide)⟩

/-! ## C2: what a failed make leaves behind -/

/-- C2 counterexample: on the concrete pinned position, `make` returns false
yet the position is NOT left as if unmade — the side to move stays toggled
(Black) and the pawn stays moved from (3,3) to (3,4). -/
theorem make_false_leaves_move_applied :
    pinnedBoard.side_to_move = true ∧
    (pinnedBoard.make pinnedMove).map
        (fun res => (res.2, res.1.side_to_move, res.1.get_piece ⟨3, 3⟩,
          res.1.get_piece ⟨3, 4⟩)) =
      some (false, false, none, some .WhitePawn) := by decide

/-- C2 amended: when `make` returns false the move stays applied and the side
to move stays toggled; restoration is the caller's job — the pre-`make`
snapshot sits on the history stack, so the caller's following `unmake`
restores every field (exactly how the search uses it). -/
theorem make_false_then_unmake_restores :
    ∀ (b : Board) (mv : Move) (b' : Board),
      b.make mv = some (b', false) → b'.unmake mv = some b := by
  intro b mv b' h
  exact Board.make_some_unmake b mv b' false h

theorem make_false_then_unmake_restores_witness :
    pinnedBoard.make pinnedMove = some (pinnedResult, false) ∧
    pinnedResult.unmake pinnedMove = some pinnedBoard :=
  ⟨by decide,
    make_false_then_unmake_restores pinnedBoard pinnedMove pinnedResult
      (by decide)⟩

/-! ## C3: promotion pieces carry the wrong color for Black -/

/-- C3 (code bug): with Black to move and a black pawn on (0,2), the four
emitted promotions carry WHITE pieces — `generate_pawn_moves` hardcodes
`Piece::White*` for both movers — contradicting the spec's "of the mover's
color". -/
theorem black_pawn_promotions_are_white :
    blackPromotionBoard.side_to_move = false ∧
    blackPromotionBoard.get_piece ⟨0, 2⟩ = some .BlackPawn ∧
    MoveGen.generate_moves blackPromotionBoard =
      [.Promotion ⟨0, 2⟩ ⟨0, 1⟩ .WhiteQueen, .Promotion ⟨0, 2⟩ ⟨0, 1⟩ .WhiteRook,
       .Promotion ⟨0, 2⟩ ⟨0, 1⟩ .WhiteKnight,
       .Promotion ⟨0, 2⟩ ⟨0, 1⟩ .WhiteBishop] := by decide

/-! ## C4: the castling-rights mask update -/

/-- C4 counterexample: moving the white rook from (1,1) yields mask 7 =
0b0111 — the cleared bit is 1<<3 (the spec's WhiteKingside name, and the bit
that gates White's kingside castle in the generator), while the claimed
WhiteQueenside bit 1<<2 is still set; and capturing the black rook on its
corner (1,8) leaves the mask at 15, clearing nothing. -/
theorem castling_mask_claim_counterexample :
    (rookMoveBoard.make (.Normal ⟨1, 1⟩ ⟨2, 1⟩)).map
        (fun res => res.1.castling_rights) = some 7 ∧
    Nat.land 7 4 = 4 ∧
    (rookCaptureBoard.make (.Normal ⟨3, 7⟩ ⟨1, 8⟩)).map
        (fun res => (res.1.castling_rights, res.1.get_piece ⟨1, 8⟩)) =
      some (15, some .WhiteKnight) := by decide

/-- C4 amended: the mask update depends only on the MOVED piece and its
source square — `castlingClear` gives 12 for the white king, 3 for the black
king, and bits 8/4/2/1 for rooks moving off (1,1)/(8,1)/(1,8)/(8,8)
respectively (so the queenside rook clears the generator's kingside-gating
bit and vice versa); captures never change the mask. -/
theorem castling_rights_update_spec :
    ∀ (b : Board) (f t : Coordinate) (b' : Board),
      b.move_piece f t = some b' →
      ∃ p, b.get_piece f = some p ∧
        b'.castling_rights =
          b.castling_rights.land (255 ^^^ castlingClear p f) := by
  intro b f t b' h
  obtain ⟨p, h1, h2, _⟩ := b.move_piece_spec f t b' h
  exact ⟨p, h1, h2⟩

theorem castling_rights_update_spec_witness :
    rookMoveBoard.move_piece ⟨1, 1⟩ ⟨2, 1⟩ = some rookMoveResult ∧
    (∃ p, rookMoveBoard.get_piece ⟨1, 1⟩ = some p ∧
      rookMoveResult.castling_rights =
        rookMoveBoard.castling_rights.land (255 ^^^ castlingClear p ⟨1, 1⟩)) :=
  ⟨by decide,
    castling_rights_update_spec rookMoveBoard ⟨1, 1⟩ ⟨2, 1⟩ rookMoveResult
      (by decide)⟩

/-! ## C5: insufficient-material detection -/

/-- C5 (code bug): White king and bishop versus a bare black king evaluates
to 400 (or -400 with Black to move), not 0 — the `white_material == 0`
conjunct makes the `white_minor_pieces <= 1` test dead code, so the
insufficient-material branch only fires for bare kings. -/
theorem evaluate_king_bishop_vs_king_nonzero :
    Board.evaluate kingBishopBoard = 400 ∧
    Board.evaluate { kingBishopBoard with side_to_move := false } = -400 := by
  decide

/-! ## C6: the en-passant register update -/

/-- C6 counterexample: a Promotion move applied through `make` does NOT clear
the en-passant register — the stale square (5,3) survives the move, because
the Promotion arm of `make` bypasses `move_piece`. -/
theorem promotion_keeps_en_passant :
    stalePromotionBoard.en_passant = some ⟨5, 3⟩ ∧
    (stalePromotionBoard.make stalePromotionMove).map
        (fun res => (res.2, res.1.en_passant)) =
      some (true, some ⟨5, 3⟩) := by decide

/-- C6 amended: every move routed through `move_piece` (Normal, Castling,
EnPassant) rewrites the register from scratch — it becomes the skipped square
iff the moved piece is a pawn displaced vertically by exactly 2, and `none`
otherwise — while a Promotion move leaves the register untouched. -/
theorem en_passant_register_update :
    (∀ (b : Board) (f t : Coordinate) (b' : Board),
      b.move_piece f t = some b' →
      ∃ p, b.get_piece f = some p ∧
        b'.en_passant =
          (if (p = .WhitePawn ∨ p = .BlackPawn) ∧ (f.y - t.y).natAbs = 2
           then some ⟨f.x, (f.y + t.y) / 2⟩ else none)) ∧
    (∀ (b : Board) (f t : Coordinate) (pc : Piece) (b' : Board) (r : Bool),
      b.make (.Promotion f t pc) = some (b', r) →
      b'.en_passant = b.en_passant) := by
  constructor
  · intro b f t b' h
    obtain ⟨p, h1, _, h3, _⟩ := b.move_piece_spec f t b' h
    exact ⟨p, h1, h3⟩
  · intro b f t pc b' r h
    simp only [Board.make, Board.make_applied] at h
    rw [Board.make_check_some _ b' r h]
    rfl

theorem en_passant_register_update_witness :
    pawnDoubleBoard.move_piece ⟨0, 2⟩ ⟨0, 4⟩ = some pawnDoubleResult ∧
    pawnDoubleResult.en_passant = some ⟨0, 3⟩ ∧
    stalePromotionBoard.make stalePromotionMove =
      some (stalePromotionResult, true) ∧
    stalePromotionResult.en_passant = stalePromotionBoard.en_passant := by
  refine ⟨by decide, ?_, by decide, ?_⟩
  · obtain ⟨p, hp, hep⟩ :=
      en_passant_register_update.1 pawnDoubleBoard ⟨0, 2⟩ ⟨0, 4⟩
        pawnDoubleResult (by decide)
    have hpw : p = Piece.WhitePawn := by
      have hg : pawnDoubleBoard.get_piece ⟨0, 2⟩ = some Piece.WhitePawn := by
        decide
      rw [hg] at hp
      exact (Option.some.inj hp).symm
    subst hpw
    rw [hep]
    decide
  · exact en_passant_register_update.2 stalePromotionBoard ⟨0, 2⟩ ⟨0, 1⟩
      .BlackQueen stalePromotionResult true (by decide)

/-! ## C8: move counts from the starting position -/

/-- Whether a move is the symbolic infinite-ray variant. -/
def Move.is_infinite : Move → Bool
  | .InfiniteMove _ _ => true
  | _ => false

/-- The source square of a move, when it has one. -/
def Move.from_sq : Move → Option Coordinate
  | .Normal f _ => some f
  | .Castling f _ => some f
  | .EnPassant f _ => some f
  | .Promotion f _ _ => some f
  | .InfiniteMove f _ => some f
  | .None => none

/-- C8 counterexample: from the canonical starting position the generator
does NOT produce 20 non-ray moves plus 4 rays. -/
theorem start_position_claimed_counts_false :
    ¬ (((MoveGen.generate_moves Board.start).filter
          (fun m => !m.is_infinite)).length = 20 ∧
       ((MoveGen.generate_moves Board.start).filter
          (fun m => m.is_infinite)).length = 4) := by decide

/-- C8 amended: on the unbounded board the starting position yields exactly
33 non-ray pseudo-legal moves — 16 pawn moves, 14 knight moves (each knight
reaches 7 squares, including files 0 and 9 and ranks -1 and 3), and 3 king
moves to rank 0 — plus exactly 11 `InfiniteRay` entries (2 per rook downward
and outward, 2 per bishop below rank 1, 3 for the queen). -/
theorem start_position_move_counts :
    ((MoveGen.generate_moves Board.start).filter
        (fun m => !m.is_infinite)).length = 33 ∧
    ((MoveGen.generate_moves Board.start).filter
        (fun m => m.is_infinite)).length = 11 ∧
    ((MoveGen.generate_moves Board.start).filter (fun m => !m.is_infinite &&
        (m.from_sq.bind Board.start.get_piece == some Piece.WhitePawn))).length
      = 16 ∧
    ((MoveGen.generate_moves Board.start).filter (fun m => !m.is_infinite &&
        (m.from_sq.bind Board.start.get_piece == some Piece.WhiteKnight))).length
      = 14 ∧
    ((MoveGen.generate_moves Board.start).filter (fun m => !m.is_infinite &&
        (m.from_sq.bind Board.start.get_piece == some Piece.WhiteKing))).length
      = 3 := by decide

/-! ## C10: when `move_piece` is panic-free -/

/-- The rook relocation inside `move_piece` cannot panic as long as the
relevant corner is occupied whenever a king makes its castling step. -/
theorem castleRookStep_isSome (s : List (Coordinate × Piece)) (p : Piece)
    (f t : Coordinate)
    (h1 : p = .WhiteKing → f = ⟨5, 1⟩ → t = ⟨3, 1⟩ → hmGet s ⟨1, 1⟩ ≠ none)
    (h2 : p = .WhiteKing → f = ⟨5, 1⟩ → t = ⟨7, 1⟩ → hmGet s ⟨8, 1⟩ ≠ none)
    (h3 : p = .BlackKing → f = ⟨5, 8⟩ → t = ⟨3, 8⟩ → hmGet s ⟨1, 8⟩ ≠ none)
    (h4 : p = .BlackKing → f = ⟨5, 8⟩ → t = ⟨7, 8⟩ → hmGet s ⟨8, 8⟩ ≠ none) :
    (castleRookStep s p f t).isSome = true := by
  unfold castleRookStep
  by_cases hw : p = .WhiteKing ∧ f = ⟨5, 1⟩
  · rw [if_pos hw]
    by_cases ht3 : t = ⟨3, 1⟩
    · rw [if_pos ht3]
      cases hg : hmGet s ⟨1, 1⟩ with
      | none => exact absurd hg (h1 hw.1 hw.2 ht3)
      | some rook => simp [hg]
    · rw [if_neg ht3]
      by_cases ht7 : t = ⟨7, 1⟩
      · rw [if_pos ht7]
        cases hg : hmGet s ⟨8, 1⟩ with
        | none => exact absurd hg (h2 hw.1 hw.2 ht7)
        | some rook => simp [hg]
      · rw [if_neg ht7]; rfl
  · rw [if_neg hw]
    by_cases hb : p = .BlackKing ∧ f = ⟨5, 8⟩
    · rw [if_pos hb]
      by_cases ht3 : t = ⟨3, 8⟩
      · rw [if_pos ht3]
        cases hg : hmGet s ⟨1, 8⟩ with
        | none => exact absurd hg (h3 hb.1 hb.2 ht3)
        | some rook => simp [hg]
      · rw [if_neg ht3]
        by_cases ht7 : t = ⟨7, 8⟩
        · rw [if_pos ht7]
          cases hg : hmGet s ⟨8, 8⟩ with
          | none => exact absurd hg (h4 hb.1 hb.2 ht7)
          | some rook => simp [hg]
        · rw [if_neg ht7]; rfl
    · rw [if_neg hb]; rfl

/-- C10 counterexample: the stated precondition (occupied source square, no
castling corner involved) is not enough — a move whose source and target
coincide panics inside `move_piece` even though the source is occupied,
because the capture-removal empties the square before the `get(..).unwrap()`. -/
theorem move_piece_panics_on_self_move :
    (Board.empty.set_piece ⟨0, 0⟩ .WhitePawn).get_piece ⟨0, 0⟩ =
      some .WhitePawn ∧
    (Board.empty.set_piece ⟨0, 0⟩ .WhitePawn).move_piece ⟨0, 0⟩ ⟨0, 0⟩ =
      none ∧
    (Board.empty.set_piece ⟨0, 0⟩ .WhitePawn).make (.Normal ⟨0, 0⟩ ⟨0, 0⟩) =
      none := by decide

/-- C10 amended: `move_piece` is panic-free when the source square is
occupied, distinct from the target, not re-emptied by the en-passant capture
(which happens only when the mover is a pawn, the target equals the register,
and the target shares the source's file), and the matching corner rook is
present whenever a king steps from (5,1)/(5,8) to (3,r)/(7,r); with an empty
source square, `make` on a Normal, Castling or EnPassant move panics instead
of returning false. -/
theorem make_panic_freedom :
    (∀ (b : Board) (f t : Coordinate) (p : Piece),
      b.get_piece f = some p → f ≠ t →
      ((p = .WhitePawn ∨ p = .BlackPawn) → b.en_passant = some t → t.x ≠ f.x) →
      (p = .WhiteKing → f = ⟨5, 1⟩ → t = ⟨3, 1⟩ → b.get_piece ⟨1, 1⟩ ≠ none) →
      (p = .WhiteKing → f = ⟨5, 1⟩ → t = ⟨7, 1⟩ → b.get_piece ⟨8, 1⟩ ≠ none) →
      (p = .BlackKing → f = ⟨5, 8⟩ → t = ⟨3, 8⟩ → b.get_piece ⟨1, 8⟩ ≠ none) →
      (p = .BlackKing → f = ⟨5, 8⟩ → t = ⟨7, 8⟩ → b.get_piece ⟨8, 8⟩ ≠ none) →
      (b.move_piece f t).isSome = true) ∧
    (∀ (b : Board) (f t : Coordinate),
      b.get_piece f = none →
      b.make (.Normal f t) = none ∧ b.make (.Castling f t) = none ∧
        b.make (.EnPassant f t) = none) := by
  constructor
  · intro b f t p hp hft hep hk1 hk2 hk3 hk4
    have hg1 : hmGet (hmErase b.state t) f = some p := by
      rw [hmGet_erase, if_neg hft]; exact hp
    have corner : ∀ (s2 : List (Coordinate × Piece)) (c : Coordinate),
        c ≠ t → c ≠ f → hmGet s2 c = hmGet b.state c →
        hmGet (hmInsert (hmErase s2 f) t p) c = hmGet b.state c := by
      intro s2 c hct hcf hs2
      rw [hmGet_insert, if_neg hct, hmGet_erase, if_neg hcf, hs2]
    simp only [Board.move_piece, hg1]
    by_cases hc : (p = Piece.WhitePawn ∨ p = Piece.BlackPawn) ∧
        b.en_passant = some t
    · rw [if_pos hc]
      have hfcc : f ≠ (⟨t.x, f.y⟩ : Coordinate) := by
        intro he
        exact hep hc.1 hc.2 (congrArg Coordinate.x he).symm
      have hg2 : hmGet (hmErase (hmErase b.state t) ⟨t.x, f.y⟩) f = some p := by
        rw [hmGet_erase, if_neg hfcc]; exact hg1
      simp only [hg2]
      have hcs := castleRookStep_isSome
        (hmInsert (hmErase (hmErase (hmErase b.state t) ⟨t.x, f.y⟩) f) t p) p f t
        (fun hpk _ _ => absurd hpk (by rcases hc.1 with h | h <;> subst h <;> simp))
        (fun hpk _ _ => absurd hpk (by rcases hc.1 with h | h <;> subst h <;> simp))
        (fun hpk _ _ => absurd hpk (by rcases hc.1 with h | h <;> subst h <;> simp))
        (fun hpk _ _ => absurd hpk (by rcases hc.1 with h | h <;> subst h <;> simp))
      cases hcs' : castleRookStep
          (hmInsert (hmErase (hmErase (hmErase b.state t) ⟨t.x, f.y⟩) f) t p)
          p f t with
      | none => rw [hcs'] at hcs; cases hcs
      | some s4 => simp [hcs']
    · rw [if_neg hc]
      simp only [hg1]
      have hcorner : ∀ (c : Coordinate), c ≠ t → c ≠ f →
          hmGet (hmInsert (hmErase (hmErase b.state t) f) t p) c =
            hmGet b.state c := by
        intro c hct hcf
        exact corner (hmErase b.state t) c hct hcf
          (by rw [hmGet_erase, if_neg hct])
      have hcs := castleRookStep_isSome
        (hmInsert (hmErase (hmErase b.state t) f) t p) p f t
        (fun hpk hf ht => by
          rw [hcorner ⟨1, 1⟩ (by rw [ht]; decide) (by rw [hf]; decide)]
          exact hk1 hpk hf ht)
        (fun hpk hf ht => by
          rw [hcorner ⟨8, 1⟩ (by rw [ht]; decide) (by rw [hf]; decide)]
          exact hk2 hpk hf ht)
        (fun hpk hf ht => by
          rw [hcorner ⟨1, 8⟩ (by rw [ht]; decide) (by rw [hf]; decide)]
          exact hk3 hpk hf ht)
        (fun hpk hf ht => by
          rw [hcorner ⟨8, 8⟩ (by rw [ht]; decide) (by rw [hf]; decide)]
          exact hk4 hpk hf ht)
      cases hcs' : castleRookStep
          (hmInsert (hmErase (hmErase b.state t) f) t p) p f t with
      | none => rw [hcs'] at hcs; cases hcs
      | some s4 => simp [hcs']
  · intro b f t hnone
    have hg : hmGet (hmErase b.state t) f = none := by
      rw [hmGet_erase]
      by_cases hft : f = t
      · rw [if_pos hft]
      · rw [if_neg hft]; exact hnone
    refine ⟨?_, ?_, ?_⟩ <;>
      simp only [Board.make, Board.make_applied, Board.move_piece, hg]

theorem make_panic_freedom_witness :
    rookMoveBoard.get_piece ⟨1, 1⟩ = some .WhiteRook ∧
    (rookMoveBoard.move_piece ⟨1, 1⟩ ⟨2, 1⟩).isSome = true ∧
    pinnedBoard.get_piece ⟨7, 7⟩ = none ∧
    pinnedBoard.make (.Normal ⟨7, 7⟩ ⟨7, 8⟩) = none := by
  refine ⟨by decide, ?_, by decide, ?_⟩
  · exact make_panic_freedom.1 rookMoveBoard ⟨1, 1⟩ ⟨2, 1⟩ .WhiteRook
      (by decide) (by decide) (fun h => by rcases h with h | h <;> cases h)
      (fun h => by cases h) (fun h => by cases h) (fun h => by cases h)
      (fun h => by cases h)
  · exact (make_panic_freedom.2 pinnedBoard ⟨7, 7⟩ ⟨7, 8⟩ (by decide)).1

/-! ## C7: the sliding-piece ray scan -/

/-- The spec's distance along a rook ray: `|ty - sy|` vertically (dx = 0),
`|tx - sx|` horizontally. -/
def MoveGen.rook_ray_dist (coord : Coordinate) (dx : Int) (tc : Coordinate) :
    Nat :=
  if dx = 0 then (tc.y - coord.y).natAbs else (tc.x - coord.x).natAbs

/-- The spec's distance along a bishop ray: `|tx - sx|`. -/
def MoveGen.bishop_ray_dist (coord : Coordinate) (tc : Coordinate) : Nat :=
  (tc.x - coord.x).natAbs

/-- The spec's "nearest piece along the ray": an on-ray entry whose distance
no other on-ray entry beats. -/
def MoveGen.nearest_on_ray (s : List (Coordinate × Piece))
    (onR : Coordinate → Bool) (dist : Coordinate → Nat)
    (tc : Coordinate) (tp : Piece) : Prop :=
  (tc, tp) ∈ s ∧ onR tc = true ∧ ∀ e ∈ s, onR e.1 = true → dist tc ≤ dist e.1

theorem MoveGen.scan_fold_eq_none (onR : Coordinate → Bool)
    (near : Coordinate → Coordinate → Bool) :
    ∀ (s : List (Coordinate × Piece)) (acc : Option (Coordinate × Piece)),
      (s.foldl (fun closest tcp =>
        if onR tcp.1 then
          match closest with
          | none => some tcp
          | some ccp => if near tcp.1 ccp.1 then some tcp else closest
        else closest) acc = none) ↔
      (acc = none ∧ ∀ e ∈ s, onR e.1 = false) := by
  intro s
  induction s with
  | nil => intro acc; simp
  | cons hd tl ih =>
    intro acc
    rw [List.foldl_cons, ih]
    constructor
    · rintro ⟨hstep, htl⟩
      by_cases hr : onR hd.1 = true
      · exfalso
        cases acc <;> simp [hr] at hstep
        split at hstep <;> cases hstep
      · have hr' : onR hd.1 = false := by
          cases honr : onR hd.1
          · rfl
          · exact absurd honr hr
        simp only [hr', Bool.false_eq_true, if_false] at hstep
        refine ⟨hstep, fun e he => ?_⟩
        rcases List.mem_cons.mp he with h | h
        · rw [h]; exact hr'
        · exact htl e h
    · rintro ⟨hacc, hall⟩
      have hhd : onR hd.1 = false := hall hd (List.mem_cons_self hd tl)
      simp only [hhd, Bool.false_eq_true, if_false]
      exact ⟨hacc, fun e he => hall e (List.mem_cons_of_mem hd he)⟩

theorem MoveGen.scan_fold_some (onR : Coordinate → Bool)
    (near : Coordinate → Coordinate → Bool) (dist : Coordinate → Nat)
    (hnear : ∀ a c, near a c = decide (dist a < dist c)) :
    ∀ (s : List (Coordinate × Piece)) (acc : Option (Coordinate × Piece)),
      (∀ a, acc = some a → onR a.1 = true) →
      ∀ (ctp : Coordinate × Piece),
      s.foldl (fun closest tcp =>
        if onR tcp.1 then
          match closest with
          | none => some tcp
          | some ccp => if near tcp.1 ccp.1 then some tcp else closest
        else closest) acc = some ctp →
      onR ctp.1 = true ∧ (ctp ∈ s ∨ acc = some ctp) ∧
      (∀ e ∈ s, onR e.1 = true → dist ctp.1 ≤ dist e.1) ∧
      (∀ a, acc = some a → dist ctp.1 ≤ dist a.1) := by
  intro s
  induction s with
  | nil =>
    intro acc hacc ctp h
    simp only [List.foldl_nil] at h
    refine ⟨hacc ctp h, Or.inr h, by simp, fun a ha => ?_⟩
    rw [h] at ha
    rw [Option.some.inj ha]
  | cons hd tl ih =>
    intro acc hacc ctp h
    rw [List.foldl_cons] at h
    by_cases hr : onR hd.1 = true
    · cases acc with
      | none =>
        simp only [hr, if_true] at h
        obtain ⟨h1, h2, h3, h4⟩ := ih (some hd)
          (fun a ha => by rw [← Option.some.inj ha]; exact hr) ctp h
        refine ⟨h1, ?_, ?_, ?_⟩
        · rcases h2 with h2 | h2
          · exact Or.inl (List.mem_cons_of_mem hd h2)
          · exact Or.inl (Option.some.inj h2 ▸ List.mem_cons_self hd tl)
        · intro e he hre
          rcases List.mem_cons.mp he with h5 | h5
          · rw [h5]; exact h4 hd rfl
          · exact h3 e h5 hre
        · intro a ha; cases ha
      | some cc =>
        by_cases hn : near hd.1 cc.1 = true
        · simp only [hr, if_true, hn] at h
          obtain ⟨h1, h2, h3, h4⟩ := ih (some hd)
            (fun a ha => by rw [← Option.some.inj ha]; exact hr) ctp h
          have hlt : dist hd.1 < dist cc.1 := by
            rw [hnear] at hn; exact of_decide_eq_true hn
          refine ⟨h1, ?_, ?_, ?_⟩
          · rcases h2 with h2 | h2
            · exact Or.inl (List.mem_cons_of_mem hd h2)
            · exact Or.inl (Option.some.inj h2 ▸ List.mem_cons_self hd tl)
          · intro e he hre
            rcases List.mem_cons.mp he with h5 | h5
            · rw [h5]; exact h4 hd rfl
            · exact h3 e h5 hre
          · intro a ha
            rw [← Option.some.inj ha]
            exact le_of_lt (lt_of_le_of_lt (h4 hd rfl) hlt)
        · simp only [hr, if_true, hn, Bool.false_eq_true, if_false] at h
          obtain ⟨h1, h2, h3, h4⟩ := ih (some cc) hacc ctp h
          have hge : dist cc.1 ≤ dist hd.1 := by
            have := hn
            rw [hnear] at this
            exact Nat.le_of_not_lt (of_decide_eq_false (Bool.of_not_eq_true this))
          refine ⟨h1, ?_, ?_, h4⟩
          · rcases h2 with h2 | h2
            · exact Or.inl (List.mem_cons_of_mem hd h2)
            · exact Or.inr h2
          · intro e he hre
            rcases List.mem_cons.mp he with h5 | h5
            · rw [h5]
              exact le_trans (h4 cc rfl) hge
            · exact h3 e h5 hre
    · have hr' : onR hd.1 = false := by
        cases honr : onR hd.1
        · rfl
        · exact absurd honr hr
      simp only [hr', Bool.false_eq_true, if_false] at h
      obtain ⟨h1, h2, h3, h4⟩ := ih acc hacc ctp h
      refine ⟨h1, ?_, ?_, h4⟩
      · rcases h2 with h2 | h2
        · exact Or.inl (List.mem_cons_of_mem hd h2)
        · exact Or.inr h2
      · intro e he hre
        rcases List.mem_cons.mp he with h5 | h5
        · rw [h5] at hre
          exact absurd hre hr
        · exact h3 e h5 hre

/-- An empty scan means no entry lies on the ray. -/
theorem MoveGen.scan_closest_eq_none (s : List (Coordinate × Piece))
    (onR : Coordinate → Bool) (near : Coordinate → Coordinate → Bool) :
    MoveGen.scan_closest s onR near = none ↔ ∀ e ∈ s, onR e.1 = false := by
  unfold MoveGen.scan_closest
  rw [MoveGen.scan_fold_eq_none]
  simp

/-- A successful scan returns an on-ray entry of minimal distance. -/
theorem MoveGen.scan_closest_spec (s : List (Coordinate × Piece))
    (onR : Coordinate → Bool) (near : Coordinate → Coordinate → Bool)
    (dist : Coordinate → Nat)
    (hnear : ∀ a c, near a c = decide (dist a < dist c))
    (ctp : Coordinate × Piece)
    (h : MoveGen.scan_closest s onR near = some ctp) :
    ctp ∈ s ∧ onR ctp.1 = true ∧
      ∀ e ∈ s, onR e.1 = true → dist ctp.1 ≤ dist e.1 := by
  unfold MoveGen.scan_closest at h
  obtain ⟨h1, h2, h3, _⟩ :=
    MoveGen.scan_fold_some onR near dist hnear s none (by simp) ctp h
  rcases h2 with h2 | h2
  · exact ⟨h2, h1, h3⟩
  · cases h2

theorem MoveGen.rook_nearer_eq_dist (coord : Coordinate) (dx dy : Int)
    (hd : (dx, dy) ∈ MoveGen.rook_directions) (a c : Coordinate) :
    MoveGen.rook_nearer coord dx dy a c =
      decide (MoveGen.rook_ray_dist coord dx a <
        MoveGen.rook_ray_dist coord dx c) := by
  simp only [MoveGen.rook_directions, List.mem_cons, List.not_mem_nil,
    or_false, Prod.mk.injEq] at hd
  rcases hd with ⟨h1, h2⟩ | ⟨h1, h2⟩ | ⟨h1, h2⟩ | ⟨h1, h2⟩ <;> subst h1 <;>
    subst h2 <;> simp [MoveGen.rook_nearer, MoveGen.rook_ray_dist]

theorem MoveGen.bishop_nearer_eq_dist (coord : Coordinate) (dx dy : Int)
    (a c : Coordinate) :
    MoveGen.bishop_nearer coord dx dy a c =
      decide (MoveGen.bishop_ray_dist coord a <
        MoveGen.bishop_ray_dist coord c) := by
  simp [MoveGen.bishop_nearer, MoveGen.bishop_ray_dist]

theorem MoveGen.rook_ray_inj (coord : Coordinate) (dx dy : Int)
    (hd : (dx, dy) ∈ MoveGen.rook_directions) (a c : Coordinate)
    (ha : MoveGen.rook_on_ray coord dx dy a = true)
    (hc : MoveGen.rook_on_ray coord dx dy c = true)
    (hdist : MoveGen.rook_ray_dist coord dx a =
      MoveGen.rook_ray_dist coord dx c) : a = c := by
  simp only [MoveGen.rook_directions, List.mem_cons, List.not_mem_nil,
    or_false, Prod.mk.injEq] at hd
  obtain ⟨ax, ay⟩ := a
  obtain ⟨cx, cy⟩ := c
  rcases hd with ⟨h1, h2⟩ | ⟨h1, h2⟩ | ⟨h1, h2⟩ | ⟨h1, h2⟩ <;> subst h1 <;>
    subst h2 <;>
    simp [MoveGen.rook_on_ray, MoveGen.rook_ray_dist] at ha hc hdist <;>
    simp only [Coordinate.mk.injEq] <;>
    constructor <;> omega

theorem MoveGen.bishop_ray_inj (coord : Coordinate) (dx dy : Int)
    (hd : (dx, dy) ∈ MoveGen.bishop_directions) (a c : Coordinate)
    (ha : MoveGen.bishop_on_ray coord dx dy a = true)
    (hc : MoveGen.bishop_on_ray coord dx dy c = true)
    (hdist : MoveGen.bishop_ray_dist coord a =
      MoveGen.bishop_ray_dist coord c) : a = c := by
  simp only [MoveGen.bishop_directions, List.mem_cons, List.not_mem_nil,
    or_false, Prod.mk.injEq] at hd
  obtain ⟨ax, ay⟩ := a
  obtain ⟨cx, cy⟩ := c
  rcases hd with ⟨h1, h2⟩ | ⟨h1, h2⟩ | ⟨h1, h2⟩ | ⟨h1, h2⟩ <;> subst h1 <;>
    subst h2 <;>
    simp only [MoveGen.bishop_on_ray, MoveGen.bishop_ray_dist,
      decide_eq_true_eq] at ha hc hdist <;>
    simp only [Coordinate.mk.injEq] <;>
    constructor <;> omega

/-- C7: for a sliding piece and a relevant direction, with a well-formed
board (one piece per coordinate): if no piece lies on the ray the generator
emits exactly the one symbolic `InfiniteMove` for that direction; and if some
piece is nearest on the ray, the generator emits exactly one Normal move onto
it when it is an opponent and nothing at all when it is friendly. -/
theorem sliding_ray_emission :
    ∀ (b : Board) (coord : Coordinate) (piece : Piece) (dx dy : Int),
      (b.state.map Prod.fst).Nodup →
      (((dx, dy) ∈ MoveGen.rook_directions →
        ((∀ e ∈ b.state, MoveGen.rook_on_ray coord dx dy e.1 = false) →
          MoveGen.rook_ray_moves b coord piece dx dy =
            [Move.InfiniteMove coord (MoveGen.rook_dir dx dy)]) ∧
        (∀ tc tp,
          MoveGen.nearest_on_ray b.state (MoveGen.rook_on_ray coord dx dy)
            (MoveGen.rook_ray_dist coord dx) tc tp →
          MoveGen.rook_ray_moves b coord piece dx dy =
            (if MoveGen.is_opponent_piece piece tp
             then [Move.Normal coord tc] else []))) ∧
       ((dx, dy) ∈ MoveGen.bishop_directions →
        ((∀ e ∈ b.state, MoveGen.bishop_on_ray coord dx dy e.1 = false) →
          MoveGen.bishop_ray_moves b coord piece dx dy =
            [Move.InfiniteMove coord (MoveGen.bishop_dir dx dy)]) ∧
        (∀ tc tp,
          MoveGen.nearest_on_ray b.state (MoveGen.bishop_on_ray coord dx dy)
            (MoveGen.bishop_ray_dist coord) tc tp →
          MoveGen.bishop_ray_moves b coord piece dx dy =
            (if MoveGen.is_opponent_piece piece tp
             then [Move.Normal coord tc] else [])))) := by
  intro b coord piece dx dy hnd
  constructor
  · intro hdir
    constructor
    · intro hall
      have hnone : MoveGen.scan_closest b.state
          (MoveGen.rook_on_ray coord dx dy) (MoveGen.rook_nearer coord dx dy) =
          none := (MoveGen.scan_closest_eq_none _ _ _).mpr hall
      simp [MoveGen.rook_ray_moves, hnone]
    · rintro tc tp ⟨hmem, honr, hmin⟩
      cases hscan : MoveGen.scan_closest b.state
          (MoveGen.rook_on_ray coord dx dy)
          (MoveGen.rook_nearer coord dx dy) with
      | none =>
        have := (MoveGen.scan_closest_eq_none _ _ _).mp hscan (tc, tp) hmem
        rw [this] at honr
        cases honr
      | some ctp =>
        obtain ⟨c1, p1⟩ := ctp
        obtain ⟨hm, h1, h3⟩ := MoveGen.scan_closest_spec b.state _ _
          (MoveGen.rook_ray_dist coord dx)
          (MoveGen.rook_nearer_eq_dist coord dx dy hdir) (c1, p1) hscan
        have hceq : c1 = tc := by
          refine MoveGen.rook_ray_inj coord dx dy hdir c1 tc h1 honr ?_
          exact Nat.le_antisymm (h3 (tc, tp) hmem honr) (hmin (c1, p1) hm h1)
        have hpeq : p1 = tp := by
          rw [hceq] at hm
          exact keys_nodup_mem_unique hnd hm hmem
        rw [hceq, hpeq] at hscan
        simp [MoveGen.rook_ray_moves, hscan]
  · intro hdir
    constructor
    · intro hall
      have hnone : MoveGen.scan_closest b.state
          (MoveGen.bishop_on_ray coord dx dy)
          (MoveGen.bishop_nearer coord dx dy) =
          none := (MoveGen.scan_closest_eq_none _ _ _).mpr hall
      simp [MoveGen.bishop_ray_moves, hnone]
    · rintro tc tp ⟨hmem, honr, hmin⟩
      cases hscan : MoveGen.scan_closest b.state
          (MoveGen.bishop_on_ray coord dx dy)
          (MoveGen.bishop_nearer coord dx dy) with
      | none =>
        have := (MoveGen.scan_closest_eq_none _ _ _).mp hscan (tc, tp) hmem
        rw [this] at honr
        cases honr
      | some ctp =>
        obtain ⟨c1, p1⟩ := ctp
        obtain ⟨hm, h1, h3⟩ := MoveGen.scan_closest_spec b.state _ _
          (MoveGen.bishop_ray_dist coord)
          (MoveGen.bishop_nearer_eq_dist coord dx dy) (c1, p1) hscan
        have hceq : c1 = tc := by
          refine MoveGen.bishop_ray_inj coord dx dy hdir c1 tc h1 honr ?_
          exact Nat.le_antisymm (h3 (tc, tp) hmem honr) (hmin (c1, p1) hm h1)
        have hpeq : p1 = tp := by
          rw [hceq] at hm
          exact keys_nodup_mem_unique hnd hm hmem
        rw [hceq, hpeq] at hscan
        simp [MoveGen.bishop_ray_moves, hscan]

/-- A rook on (0,0) with a black pawn blocking the upward ray. -/
def rayWitnessBoard : Board :=
  { state := [(⟨0, 0⟩, .WhiteRook), (⟨0, 3⟩, .BlackPawn)],
    castling_rights := 15, en_passant := none, side_to_move := true,
    history := [] }

theorem sliding_ray_emission_witness :
    MoveGen.rook_ray_moves rayWitnessBoard ⟨0, 0⟩ .WhiteRook 0 1 =
      [Move.Normal ⟨0, 0⟩ ⟨0, 3⟩] ∧
    MoveGen.rook_ray_moves rayWitnessBoard ⟨0, 0⟩ .WhiteRook 1 0 =
      [Move.InfiniteMove ⟨0, 0⟩ Direction.Right] ∧
    MoveGen.bishop_ray_moves rayWitnessBoard ⟨0, 0⟩ .WhiteBishop 1 1 =
      [Move.InfiniteMove ⟨0, 0⟩ Direction.TopRight] := by
  refine ⟨?_, ?_, ?_⟩
  · have h := ((sliding_ray_emission rayWitnessBoard ⟨0, 0⟩ .WhiteRook 0 1
      (by decide)).1 (by decide)).2 ⟨0, 3⟩ .BlackPawn
      ⟨by decide, by decide, by decide⟩
    rw [h]
    decide
  · exact ((sliding_ray_emission rayWitnessBoard ⟨0, 0⟩ .WhiteRook 1 0
      (by decide)).1 (by decide)).1 (by decide)
  · exact ((sliding_ray_emission rayWitnessBoard ⟨0, 0⟩ .WhiteBishop 1 1
      (by decide)).2 (by decide)).1 (by decide)
